import Mathlib

/-!
Shallow embedding of `src/zettelkasten_mcp/storage/mongo_repository.py`
(class `MongoNoteRepository`), the MongoDB-backed note repository of the
zettelkasten-mcp project.

The MongoDB collection is modelled as a list of documents in insertion
order (`RepoState`).  `insert_one` appends and fails on a duplicate `id`
(the collection has a unique index on `id`; all other indexes created in
`__init__` are non-unique and impose no constraint).  `find`/`find_one`
scan in order; `update_one`/`delete_one` act on the first match.
`datetime` values are modelled as `Int` timestamps.  Fallible code is
modelled with `Except`/`Option`.
-/

namespace Zettel

/-- Modelled from the spec: `NoteType` enum of `models/schema.py` (the
module is not in the source tree); members per §3 of the spec.
`structureT` stands for the Python member named `structure`. -/
inductive NoteType
  | fleeting
  | literature
  | permanent
  | structureT
  | hub
  deriving DecidableEq, Repr

/-- The `.value` string of each `NoteType` member. -/
def NoteType.value : NoteType → String
  | .fleeting => "fleeting"
  | .literature => "literature"
  | .permanent => "permanent"
  | .structureT => "structure"
  | .hub => "hub"

/-- Model of `NoteType(s)`: the member whose value is `s`, or failure
(Python raises `ValueError` on an unknown value). -/
def NoteType.ofValue (s : String) : Option NoteType :=
  if s = "fleeting" then some .fleeting
  else if s = "literature" then some .literature
  else if s = "permanent" then some .permanent
  else if s = "structure" then some .structureT
  else if s = "hub" then some .hub
  else none

/-- Modelled from the spec: `LinkType` enum of `models/schema.py`;
members per §3 of the spec.  `extendsL` stands for the Python member
named `extends`. -/
inductive LinkType
  | reference
  | extendsL
  | refines
  | contradicts
  | questions
  | supports
  | related
  deriving DecidableEq, Repr

/-- The `.value` string of each `LinkType` member. -/
def LinkType.value : LinkType → String
  | .reference => "reference"
  | .extendsL => "extends"
  | .refines => "refines"
  | .contradicts => "contradicts"
  | .questions => "questions"
  | .supports => "supports"
  | .related => "related"

/-- Model of `LinkType(s)`: the member whose value is `s`, or failure. -/
def LinkType.ofValue (s : String) : Option LinkType :=
  if s = "reference" then some .reference
  else if s = "extends" then some .extendsL
  else if s = "refines" then some .refines
  else if s = "contradicts" then some .contradicts
  else if s = "questions" then some .questions
  else if s = "supports" then some .supports
  else if s = "related" then some .related
  else none

/-- Modelled from the spec: `Tag` of `models/schema.py` — a name. -/
structure Tag where
  name : String
  deriving DecidableEq, Repr

/-- Modelled from the spec: `Link` of `models/schema.py` — a typed
outgoing edge stored on its source note. -/
structure Link where
  source_id : String
  target_id : String
  link_type : LinkType
  description : Option String
  created_at : Int
  deriving DecidableEq, Repr

/-- Modelled from the spec: `Note` of `models/schema.py` — id, title,
content, note_type, tags, outgoing links, timestamps, metadata map
(modelled as an association list). -/
structure Note where
  id : String
  title : String
  content : String
  note_type : NoteType
  tags : List Tag
  links : List Link
  created_at : Int
  updated_at : Int
  metadata : List (String × String)
  deriving DecidableEq, Repr

/-- The sub-document produced for one link by `_note_to_document`. -/
structure LinkDoc where
  source_id : String
  target_id : String
  link_type : String
  description : Option String
  created_at : Int
  deriving DecidableEq, Repr

/-- A MongoDB document of the notes collection, with exactly the fields
written by `MongoNoteRepository._note_to_document`. -/
structure NoteDoc where
  id : String
  title : String
  content : String
  note_type : String
  tags : List String
  links : List LinkDoc
  created_at : Int
  updated_at : Int
  metadata : List (String × String)
  deriving DecidableEq, Repr

/-- The MongoDB collection: documents in insertion order. -/
abbrev RepoState := List NoteDoc

namespace MongoNoteRepository

/-- Model of `_note_to_document`: convert a `Note` to a MongoDB document. -/
def note_to_document (note : Note) : NoteDoc :=
  { id := note.id
    title := note.title
    content := note.content
    note_type := note.note_type.value
    tags := note.tags.map (fun t => t.name)
    links := note.links.map (fun l =>
      { source_id := l.source_id
        target_id := l.target_id
        link_type := l.link_type.value
        description := l.description
        created_at := l.created_at })
    created_at := note.created_at
    updated_at := note.updated_at
    metadata := note.metadata }

/-- Decode the link sub-documents of the document whose id is `nid`
(the list comprehension inside `_document_to_note`): each link's
`source_id` is taken from the document's own `id`, not from the stored
`source_id`; the stored `link_type` string goes through `LinkType(...)`,
which fails on an unknown value. -/
def decodeLinks (nid : String) : List LinkDoc → Option (List Link)
  | [] => some []
  | l :: rest =>
    match LinkType.ofValue l.link_type with
    | none => none
    | some lt =>
      match decodeLinks nid rest with
      | none => none
      | some ls =>
        some ({ source_id := nid
                target_id := l.target_id
                link_type := lt
                description := l.description
                created_at := l.created_at } :: ls)

/-- Model of `_document_to_note`: convert a document back to a `Note`.
Enum strings go through `LinkType(...)` / `NoteType(...)`, which fail on
unknown values (`none` here models the Python `ValueError`). -/
def document_to_note (doc : NoteDoc) : Option Note :=
  match decodeLinks doc.id doc.links with
  | none => none
  | some links =>
    match NoteType.ofValue doc.note_type with
    | none => none
    | some nt =>
      some { id := doc.id
             title := doc.title
             content := doc.content
             note_type := nt
             tags := doc.tags.map (fun n => { name := n })
             links := links
             created_at := doc.created_at
             updated_at := doc.updated_at
             metadata := doc.metadata }

/-- Errors raised by the repository: `IOError` from `create` (wrapping
the pymongo failure), `ValueError` from `update`/`delete`. -/
inductive RepoError
  | ioError (msg : String)
  | valueError (msg : String)
  deriving DecidableEq, Repr

/-- Model of `create(entity)`: assign `gen` as id when the id is empty
(`generate_id()` of the missing `models/schema.py`, passed here as a
parameter), then `insert_one` the document.  The unique index on `id`
makes the insert fail exactly when a document with the same id is
already stored; pymongo's error is re-raised as `IOError`. -/
def create (gen : String) (s : RepoState) (entity : Note) :
    Except RepoError (RepoState × Note) :=
  let note := if entity.id = "" then { entity with id := gen } else entity
  let document := note_to_document note
  if s.any (fun d => d.id = note.id) then
    .error (.ioError "Failed to insert note into MongoDB: duplicate key")
  else
    .ok (s ++ [document], note)

/-- Model of `find_one({"id": id})`: first stored document with that id. -/
def get (s : RepoState) (id : String) : Option NoteDoc :=
  s.find? (fun d => d.id = id)

/-- Replace the first document whose id matches (`update_one` with a
`$set` of every field of the new document). -/
def setFirst (s : RepoState) (id : String) (nd : NoteDoc) : RepoState :=
  match s with
  | [] => []
  | d :: rest => if d.id = id then nd :: rest else d :: setFirst rest id nd

/-- Model of `update(entity)`: set `updated_at` to the current time `now`,
rewrite the stored document via `update_one({"id": id}, {"$set": doc})`;
`ValueError` when no document matched. -/
def update (now : Int) (s : RepoState) (entity : Note) :
    Except RepoError (RepoState × Note) :=
  let note := { entity with updated_at := now }
  let document := note_to_document note
  if s.any (fun d => d.id = note.id) then
    .ok (setFirst s note.id document, note)
  else
    .error (.valueError ("Note with ID " ++ note.id ++ " does not exist"))

/-- Remove the first document whose id matches (`delete_one`). -/
def eraseFirst (s : RepoState) (id : String) : RepoState :=
  match s with
  | [] => []
  | d :: rest => if d.id = id then rest else d :: eraseFirst rest id

/-- Model of `delete(id)`: `delete_one({"id": id})`; `ValueError` when no
document was deleted. -/
def delete (s : RepoState) (id : String) : Except RepoError RepoState :=
  if s.any (fun d => d.id = id) then
    .ok (eraseFirst s id)
  else
    .error (.valueError ("Note with ID " ++ id ++ " does not exist"))

/-- Model of `rebuild_index()`: a no-op for the Mongo backend. -/
def rebuild_index (s : RepoState) : RepoState := s

/-- Does the regex `pat` match a prefix of `text`?  The pattern strings
passed to Mongo's `$regex` are interpreted as regular expressions; this
models the fragment in which `.` (match any one character) is the only
metacharacter and every other character matches itself.  Comparison is
case-insensitive, modelling `$options: "i"`. -/
def patMatch : List Char → List Char → Bool
  | [], _ => true
  | _ :: _, [] => false
  | p :: ps, c :: cs => (p = '.' || p.toLower = c.toLower) && patMatch ps cs

/-- Unanchored, case-insensitive regex search (`$regex` with
`$options: "i"`): does `pat` match starting at some position of
`text`? -/
def regexSearchCI (pat : List Char) : List Char → Bool
  | [] => patMatch pat []
  | c :: cs => patMatch pat (c :: cs) || regexSearchCI pat cs

/-- The `"tags"` entry of a built query: either equality with one tag
name (array-containment match) or `{"$in": [...]}`. -/
inductive TagsCond
  | eqName (t : String)
  | inList (l : List String)
  deriving DecidableEq, Repr

/-- The query dictionary built by `search`, one field per Mongo key it
can contain. -/
structure MongoQuery where
  content_regex : Option String := none
  title_regex : Option String := none
  note_type_eq : Option String := none
  tags_cond : Option TagsCond := none
  links_target_eq : Option String := none
  created_gte : Option Int := none
  created_lte : Option Int := none
  updated_gte : Option Int := none
  updated_lte : Option Int := none
  deriving DecidableEq, Repr

/-- The keyword arguments `search` accepts (absent keyword = `none`). -/
structure SearchCriteria where
  content : Option String := none
  title : Option String := none
  note_type : Option String := none
  tag : Option String := none
  tags : Option (List String) := none
  linked_to : Option String := none
  linked_from : Option String := none
  created_after : Option Int := none
  created_before : Option Int := none
  updated_after : Option Int := none
  updated_before : Option Int := none
  deriving DecidableEq, Repr

/-- Build the query dictionary exactly as `search` does, in source
order: `tags` overwrites the entry written by `tag`; `linked_from`
overwrites the `links.target_id` entry written by `linked_to`;
`created_after`/`updated_after` assign a fresh range dictionary while
`created_before`/`updated_before` merge into it (`setdefault`). -/
def buildQuery (c : SearchCriteria) : MongoQuery :=
  let q : MongoQuery := {}
  let q := match c.content with
    | some v => { q with content_regex := some v } | none => q
  let q := match c.title with
    | some v => { q with title_regex := some v } | none => q
  let q := match c.note_type with
    | some v => { q with note_type_eq := some v } | none => q
  let q := match c.tag with
    | some t => { q with tags_cond := some (.eqName t) } | none => q
  let q := match c.tags with
    | some l => { q with tags_cond := some (.inList l) } | none => q
  let q := match c.linked_to with
    | some v => { q with links_target_eq := some v } | none => q
  let q := match c.linked_from with
    | some v => { q with links_target_eq := some v } | none => q
  let q := match c.created_after with
    | some v => { q with created_gte := some v, created_lte := none } | none => q
  let q := match c.created_before with
    | some v => { q with created_lte := some v } | none => q
  let q := match c.updated_after with
    | some v => { q with updated_gte := some v, updated_lte := none } | none => q
  let q := match c.updated_before with
    | some v => { q with updated_lte := some v } | none => q
  q

/-- Does a stored document satisfy the query?  Array fields follow
Mongo semantics: equality against an array field means containment,
`$in` against an array field means non-empty intersection, and a dotted
path into an array of sub-documents matches if any element does. -/
def matchDoc (q : MongoQuery) (d : NoteDoc) : Bool :=
  (match q.content_regex with
    | some p => regexSearchCI p.data d.content.data | none => true) &&
  (match q.title_regex with
    | some p => regexSearchCI p.data d.title.data | none => true) &&
  (match q.note_type_eq with
    | some v => d.note_type = v | none => true) &&
  (match q.tags_cond with
    | some (.eqName t) => d.tags.contains t
    | some (.inList l) => d.tags.any (fun t => l.contains t)
    | none => true) &&
  (match q.links_target_eq with
    | some v => d.links.any (fun l => l.target_id = v) | none => true) &&
  (match q.created_gte with
    | some a => decide (a ≤ d.created_at) | none => true) &&
  (match q.created_lte with
    | some b => decide (d.created_at ≤ b) | none => true) &&
  (match q.updated_gte with
    | some a => decide (a ≤ d.updated_at) | none => true) &&
  (match q.updated_lte with
    | some b => decide (d.updated_at ≤ b) | none => true)

/-- Model of `search(**kwargs)`: build the query and run `collection.find`.
The Python method then maps `_document_to_note` over the result
pointwise (modelled separately by `document_to_note`); membership of a
note in the result corresponds to membership of its document here. -/
def search (s : RepoState) (c : SearchCriteria) : List NoteDoc :=
  s.filter (matchDoc (buildQuery c))

/-- Keep the first document of each id, in first-occurrence order
(the `results` dict of `find_linked_notes`: keyed by note id, insertion
ordered, re-insertion of the same key keeps the original position). -/
def dedupById : List NoteDoc → List NoteDoc
  | [] => []
  | d :: rest => d :: dedupById (rest.filter (fun e => e.id ≠ d.id))
termination_by l => l.length
decreasing_by
  simp only [List.length_cons]
  exact Nat.lt_succ_of_le (List.length_filter_le _ _)

/-- Model of `find_linked_notes(note_id, "outgoing")`: fetch the note, then for
each of its links fetch the link's target; targets that do not resolve
are skipped; results are deduplicated by id via the `results` dict. -/
def find_linked_notes_outgoing (s : RepoState) (note_id : String) :
    List NoteDoc :=
  match get s note_id with
  | none => []
  | some nd => dedupById (nd.links.filterMap (fun l => get s l.target_id))

end MongoNoteRepository

/-- Spec reading, for comparison with the implementation: is `sub` a
case-insensitive prefix of `s`? -/
def prefixCI : List Char → List Char → Bool
  | [], _ => true
  | _ :: _, [] => false
  | a :: as, b :: bs => (a.toLower = b.toLower) && prefixCI as bs

/-- Spec reading, for comparison with the implementation: the spec's
"contains s as a substring ignoring case" — does `sub` occur as a
contiguous substring of `s`, compared case-insensitively? -/
def substrCI (sub : List Char) : List Char → Bool
  | [] => prefixCI sub []
  | c :: cs => prefixCI sub (c :: cs) || substrCI sub cs

/-- A concrete note used by the examples below. -/
def exNoteA : Note :=
  { id := "A", title := "T", content := "alpha", note_type := .permanent
    tags := [], links := [], created_at := 0, updated_at := 0, metadata := [] }

/-- A second note with a fresh id but the same title as `exNoteA`. -/
def exNoteB : Note := { exNoteA with id := "B" }

/-- An outgoing link from `exNoteA` to a note `B`. -/
def exLinkAB : Link :=
  { source_id := "A", target_id := "B", link_type := .reference
    description := none, created_at := 0 }

/-- The note `exNoteA` carrying the same link twice: two links with an
identical (source_id, target_id, link_type) triple. -/
def exNoteADupLinks : Note := { exNoteA with links := [exLinkAB, exLinkAB] }

/-- A stored document with the single tag `"a"`. -/
def exTagDoc : NoteDoc :=
  { id := "t1", title := "tagged", content := "", note_type := "permanent"
    tags := ["a"], links := [], created_at := 0, updated_at := 0, metadata := [] }

/-- A stored document whose title is `"abc"`. -/
def exRegexDoc : NoteDoc :=
  { id := "r1", title := "abc", content := "xyz", note_type := "permanent"
    tags := [], links := [], created_at := 0, updated_at := 0, metadata := [] }

namespace MongoNoteRepository

theorem any_id_iff (s : RepoState) (i : String) :
    s.any (fun d => d.id = i) = true ↔ ∃ d ∈ s, d.id = i := by
  simp [List.any_eq_true]

theorem get_setFirst_self (s : RepoState) (i : String) (nd : NoteDoc)
    (hnd : nd.id = i) (h : s.any (fun d => d.id = i) = true) :
    get (setFirst s i nd) i = some nd := by
  induction s with
  | nil => simp at h
  | cons d rest ih =>
    by_cases hd : d.id = i
    · simp [setFirst, hd, get, List.find?_cons, hnd]
    · have h' : rest.any (fun d => d.id = i) = true := by
        simpa [List.any_cons, hd] using h
      simpa [setFirst, hd, get, List.find?_cons] using ih h'

theorem eraseFirst_eq_filter (s : RepoState)
    (h : (s.map NoteDoc.id).Nodup) (i : String) :
    eraseFirst s i = s.filter (fun d => d.id ≠ i) := by
  induction s with
  | nil => rfl
  | cons d rest ih =>
    simp only [List.map_cons, List.nodup_cons] at h
    by_cases hd : d.id = i
    · have hrest : ∀ e ∈ rest, e.id ≠ i := by
        intro e he hei
        exact h.1 (by simpa [hei, hd] using List.mem_map_of_mem NoteDoc.id he)
      simp only [eraseFirst, if_pos hd, List.filter_cons]
      rw [if_neg (by simp [hd])]
      exact (List.filter_eq_self.mpr (by intro e he; simpa using hrest e he)).symm
    · simp only [eraseFirst, if_neg hd, List.filter_cons]
      rw [if_pos (by simp [hd])]
      exact congrArg (d :: ·) (ih h.2)

end MongoNoteRepository

/-- C8: `rebuild_index` is idempotent — for every repository state,
running it twice with no intervening changes leaves the index identical
to running it once.  (For the Mongo backend the operation is a
documented no-op.) -/
theorem rebuild_index_idempotent (s : RepoState) :
    MongoNoteRepository.rebuild_index (MongoNoteRepository.rebuild_index s)
      = MongoNoteRepository.rebuild_index s := rfl

/-- C1 counterexample: the repository already stores a note titled
`"T"` (`exNoteA`); creating `exNoteB`, a note with the fresh id `"B"`
but the same title `"T"`, succeeds and inserts it — it does not fail
with any error, refuting "for every note whose id or title already
exists, create(note) fails". -/
theorem create_duplicate_title_succeeds_cex :
    exNoteB.title = exNoteA.title
    ∧ exNoteB.id ≠ exNoteA.id
    ∧ MongoNoteRepository.create "g"
        [MongoNoteRepository.note_to_document exNoteA] exNoteB
      = .ok ([MongoNoteRepository.note_to_document exNoteA,
              MongoNoteRepository.note_to_document exNoteB], exNoteB) :=
  ⟨rfl, by decide, rfl⟩

/-- C1 (amended): for a note with a non-empty id, `create` fails — with
an `IOError` wrapping the pymongo duplicate-key failure, the collection
left unchanged — exactly when a note with the same id is already
stored (titles impose no constraint); when the id is fresh it appends
exactly that note's document. -/
theorem create_fails_iff_duplicate_id (gen : String) (s : RepoState)
    (n : Note) (h : n.id ≠ "") :
    ((∃ d ∈ s, d.id = n.id) → ∃ e, MongoNoteRepository.create gen s n = .error e)
    ∧ ((¬ ∃ d ∈ s, d.id = n.id) →
        MongoNoteRepository.create gen s n
          = .ok (s ++ [MongoNoteRepository.note_to_document n], n)) := by
  constructor
  · intro hd
    refine ⟨.ioError "Failed to insert note into MongoDB: duplicate key", ?_⟩
    simp [MongoNoteRepository.create, h,
      (MongoNoteRepository.any_id_iff s n.id).mpr hd]
  · intro hd
    have : s.any (fun d => d.id = n.id) = false := by
      by_contra hc
      exact hd ((MongoNoteRepository.any_id_iff s n.id).mp (by simpa using hc))
    simp [MongoNoteRepository.create, h, this]

/-- C1 witness: applying the amended theorem at a concrete input. -/
theorem create_fails_iff_duplicate_id_witness :
    MongoNoteRepository.create "g" [] exNoteA
      = .ok ([MongoNoteRepository.note_to_document exNoteA], exNoteA) :=
  (create_fails_iff_duplicate_id "g" [] exNoteA (by decide)).2 (by simp)

/-- C2: `update(note)` fails with the not-found error exactly when no
stored note has `note.id`; on failure no new state is produced (the
collection is untouched), and on success the stored document for that
id is fully replaced by the document of the given note with
`updated_at` recomputed to the current time. -/
theorem update_not_found_iff_full_replace (now : Int) (s : RepoState) (n : Note) :
    ((∃ e, MongoNoteRepository.update now s n = .error e) ↔ ¬ ∃ d ∈ s, d.id = n.id)
    ∧ (∀ s' n', MongoNoteRepository.update now s n = .ok (s', n') →
        n' = { n with updated_at := now }
        ∧ s' = MongoNoteRepository.setFirst s n.id
            (MongoNoteRepository.note_to_document { n with updated_at := now })
        ∧ MongoNoteRepository.get s' n.id
            = some (MongoNoteRepository.note_to_document { n with updated_at := now })) := by
  by_cases h : s.any (fun d => d.id = n.id) = true
  · constructor
    · simp only [MongoNoteRepository.update, h]
      simp [(MongoNoteRepository.any_id_iff s n.id).mp h]
    · intro s' n' hok
      simp only [MongoNoteRepository.update, h, if_true, Except.ok.injEq,
        Prod.mk.injEq] at hok
      refine ⟨hok.2.symm, hok.1.symm, ?_⟩
      rw [← hok.1]
      exact MongoNoteRepository.get_setFirst_self s n.id _ rfl h
  · have hfalse : s.any (fun d => d.id = n.id) = false := by
      simpa using h
    constructor
    · simp only [MongoNoteRepository.update, hfalse]
      simp only [Bool.false_eq_true, if_false]
      constructor
      · intro _
        intro hd
        exact h ((MongoNoteRepository.any_id_iff s n.id).mpr hd)
      · intro _
        exact ⟨.valueError ("Note with ID " ++ n.id ++ " does not exist"), rfl⟩
    · intro s' n' hok
      simp [MongoNoteRepository.update, hfalse] at hok

/-- C2 witness: applying the theorem at a concrete input. -/
theorem update_not_found_iff_full_replace_witness :
    MongoNoteRepository.get
        (MongoNoteRepository.setFirst [MongoNoteRepository.note_to_document exNoteA]
          "A" (MongoNoteRepository.note_to_document { exNoteA with updated_at := 1 }))
        exNoteA.id
      = some (MongoNoteRepository.note_to_document { exNoteA with updated_at := 1 }) :=
  ((update_not_found_iff_full_replace 1
      [MongoNoteRepository.note_to_document exNoteA] exNoteA).2
    (MongoNoteRepository.setFirst [MongoNoteRepository.note_to_document exNoteA]
      "A" (MongoNoteRepository.note_to_document { exNoteA with updated_at := 1 }))
    { exNoteA with updated_at := 1 } rfl).2.2

/-- C3: `delete(id)` fails with the not-found error exactly when no
stored note has that id (failure produces no new state, so the
collection is untouched); on success — assuming the id-uniqueness the
unique Mongo index on `id` guarantees — it removes exactly the note
with that id and keeps every other stored note unchanged, in order. -/
theorem delete_not_found_iff_removes_exactly (s : RepoState) (i : String)
    (h : (s.map NoteDoc.id).Nodup) :
    ((∃ e, MongoNoteRepository.delete s i = .error e) ↔ ¬ ∃ d ∈ s, d.id = i)
    ∧ (∀ s', MongoNoteRepository.delete s i = .ok s' →
        s' = s.filter (fun d => d.id ≠ i)) := by
  by_cases hany : s.any (fun d => d.id = i) = true
  · constructor
    · simp only [MongoNoteRepository.delete, hany]
      simp [(MongoNoteRepository.any_id_iff s i).mp hany]
    · intro s' hok
      simp only [MongoNoteRepository.delete, hany, if_true, Except.ok.injEq] at hok
      rw [← hok]
      exact (MongoNoteRepository.eraseFirst_eq_filter s h i)
  · have hfalse : s.any (fun d => d.id = i) = false := by simpa using hany
    constructor
    · simp only [MongoNoteRepository.delete, hfalse]
      simp only [Bool.false_eq_true, if_false]
      constructor
      · intro _ hd
        exact hany ((MongoNoteRepository.any_id_iff s i).mpr hd)
      · intro _
        exact ⟨.valueError ("Note with ID " ++ i ++ " does not exist"), rfl⟩
    · intro s' hok
      simp [MongoNoteRepository.delete, hfalse] at hok

/-- C4 counterexample: starting from the empty collection, `create`
stores `exNoteA`, and `update` then persists `exNoteADupLinks`, whose
links list carries the same (source_id, target_id, link_type) triple
twice.  Both operations succeed — no ConflictError — and the reachable
stored state contains two identical link triples. -/
theorem duplicate_link_triple_persisted_cex :
    MongoNoteRepository.create "g" [] exNoteA
      = .ok ([MongoNoteRepository.note_to_document exNoteA], exNoteA)
    ∧ MongoNoteRepository.update 1 [MongoNoteRepository.note_to_document exNoteA]
        exNoteADupLinks
      = .ok ([MongoNoteRepository.note_to_document
                { exNoteADupLinks with updated_at := 1 }],
             { exNoteADupLinks with updated_at := 1 })
    ∧ (MongoNoteRepository.note_to_document
        { exNoteADupLinks with updated_at := 1 }).links
      = [{ source_id := "A", target_id := "B", link_type := "reference"
           description := none, created_at := 0 },
         { source_id := "A", target_id := "B", link_type := "reference"
           description := none, created_at := 0 }] :=
  ⟨rfl, rfl, rfl⟩

/-- C4 (amended): the Mongo index store enforces no uniqueness on link
triples — the only unique index created in `__init__` is on `id`.  For
a note whose id is stored, `update` succeeds and persists the note's
links list verbatim, duplicate (source_id, target_id, link_type)
triples included, raising no error. -/
theorem update_stores_links_verbatim (now : Int) (s : RepoState) (n : Note)
    (h : ∃ d ∈ s, d.id = n.id) :
    MongoNoteRepository.update now s n
      = .ok (MongoNoteRepository.setFirst s n.id
               (MongoNoteRepository.note_to_document { n with updated_at := now }),
             { n with updated_at := now })
    ∧ (MongoNoteRepository.note_to_document { n with updated_at := now }).links
      = n.links.map (fun l =>
          { source_id := l.source_id, target_id := l.target_id
            link_type := l.link_type.value, description := l.description
            created_at := l.created_at }) := by
  have hany := (MongoNoteRepository.any_id_iff s n.id).mpr h
  exact ⟨by simp [MongoNoteRepository.update, hany], rfl⟩

/-- C4 witness: applying the amended theorem at a concrete input. -/
theorem update_stores_links_verbatim_witness :
    MongoNoteRepository.update 1 [MongoNoteRepository.note_to_document exNoteA]
        exNoteADupLinks
      = .ok (MongoNoteRepository.setFirst
               [MongoNoteRepository.note_to_document exNoteA] exNoteADupLinks.id
               (MongoNoteRepository.note_to_document
                 { exNoteADupLinks with updated_at := 1 }),
             { exNoteADupLinks with updated_at := 1 }) :=
  (update_stores_links_verbatim 1 [MongoNoteRepository.note_to_document exNoteA]
    exNoteADupLinks (by decide)).1

/-- C5 counterexample: the stored note `exTagDoc` carries only the tag
`"a"`, yet `search` with the tag list `["a", "b"]` returns it — the
result contains a note that does not include every requested tag,
refuting the AND semantics. -/
theorem search_tags_and_semantics_cex :
    MongoNoteRepository.search [exTagDoc] { tags := some ["a", "b"] } = [exTagDoc]
    ∧ exTagDoc.tags.contains "b" = false :=
  ⟨rfl, rfl⟩

/-- C5 (amended): the tag-list criterion is translated to Mongo `$in`,
which has ANY (OR) semantics over the note's tag array: for every
repository state and tag list, a note is returned exactly when it is
stored and at least one of its tags is among the requested tags. -/
theorem search_tags_any_iff (s : RepoState) (ts : List String) (d : NoteDoc) :
    d ∈ MongoNoteRepository.search s { tags := some ts } ↔
      d ∈ s ∧ ∃ t ∈ d.tags, t ∈ ts := by
  simp [MongoNoteRepository.search, MongoNoteRepository.buildQuery,
    MongoNoteRepository.matchDoc, List.mem_filter, List.any_eq_true]

/-- C7: date-range filtering is inclusive at both ends and an absent
bound imposes no constraint: a stored note is returned by a
`created_after`/`created_before` (respectively
`updated_after`/`updated_before`) search exactly when each present
bound is satisfied with a non-strict comparison (`$gte`/`$lte`), so a
note whose timestamp equals a bound is included. -/
theorem search_date_range_inclusive (s : RepoState) (ca cb ua ub : Option Int)
    (d : NoteDoc) :
    (d ∈ MongoNoteRepository.search s { created_after := ca, created_before := cb } ↔
      d ∈ s ∧ (∀ a ∈ ca, a ≤ d.created_at) ∧ (∀ b ∈ cb, d.created_at ≤ b))
    ∧ (d ∈ MongoNoteRepository.search s { updated_after := ua, updated_before := ub } ↔
      d ∈ s ∧ (∀ a ∈ ua, a ≤ d.updated_at) ∧ (∀ b ∈ ub, d.updated_at ≤ b)) := by
  constructor
  · rcases ca with _ | a <;> rcases cb with _ | b <;>
      simp [MongoNoteRepository.search, MongoNoteRepository.buildQuery,
        MongoNoteRepository.matchDoc, List.mem_filter, and_assoc]
  · rcases ua with _ | a <;> rcases ub with _ | b <;>
      simp [MongoNoteRepository.search, MongoNoteRepository.buildQuery,
        MongoNoteRepository.matchDoc, List.mem_filter, and_assoc]

/-- C3 witness: applying the theorem at a concrete input. -/
theorem delete_not_found_iff_removes_exactly_witness :
    MongoNoteRepository.eraseFirst [MongoNoteRepository.note_to_document exNoteA] "A"
      = [MongoNoteRepository.note_to_document exNoteA].filter (fun d => d.id ≠ "A") :=
  (delete_not_found_iff_removes_exactly
      [MongoNoteRepository.note_to_document exNoteA] "A" (by decide)).2
    (MongoNoteRepository.eraseFirst [MongoNoteRepository.note_to_document exNoteA] "A")
    rfl

theorem patMatch_eq_prefixCI (pat : List Char) (h : ∀ c ∈ pat, c ≠ '.') :
    ∀ s, MongoNoteRepository.patMatch pat s = prefixCI pat s := by
  induction pat with
  | nil => intro s; cases s <;> rfl
  | cons p ps ih =>
    intro s
    cases s with
    | nil => rfl
    | cons c cs =>
      have hp : p ≠ '.' := h p (List.mem_cons_self _ _)
      have ih' := ih (fun x hx => h x (List.mem_cons_of_mem _ hx))
      simp [MongoNoteRepository.patMatch, prefixCI, hp, ih']

theorem regexSearchCI_eq_substrCI (pat : List Char) (h : ∀ c ∈ pat, c ≠ '.') :
    ∀ s, MongoNoteRepository.regexSearchCI pat s = substrCI pat s := by
  intro s
  induction s with
  | nil =>
    simp [MongoNoteRepository.regexSearchCI, substrCI, patMatch_eq_prefixCI pat h]
  | cons c cs ih =>
    simp [MongoNoteRepository.regexSearchCI, substrCI,
      patMatch_eq_prefixCI pat h, ih]

/-- C6 counterexample: the stored note `exRegexDoc` is titled `"abc"`;
a title search for the string `"a.c"` returns it, although `"a.c"` is
not a substring of `"abc"` even ignoring case — the criterion string is
interpreted as a regular expression (`.` matches any character), not as
a literal substring. -/
theorem search_title_regex_interpreted_cex :
    MongoNoteRepository.search [exRegexDoc] { title := some "a.c" } = [exRegexDoc]
    ∧ substrCI "a.c".data exRegexDoc.title.data = false :=
  ⟨rfl, rfl⟩

/-- C6 (amended): the title and content criteria are evaluated as
case-insensitive regular expressions (Mongo `$regex` with option `i`),
not as literal substrings.  For a criterion string without regex
metacharacters (here: no `.`, the metacharacter of the modelled
fragment) the original reading holds: the search returns exactly the
stored notes whose title (respectively content) contains the criterion
as a substring ignoring case. -/
theorem search_literal_pattern_substring (s : RepoState) (pat : String)
    (d : NoteDoc) (h : ∀ c ∈ pat.data, c ≠ '.') :
    (d ∈ MongoNoteRepository.search s { title := some pat } ↔
      d ∈ s ∧ substrCI pat.data d.title.data = true)
    ∧ (d ∈ MongoNoteRepository.search s { content := some pat } ↔
      d ∈ s ∧ substrCI pat.data d.content.data = true) := by
  constructor <;>
    simp [MongoNoteRepository.search, MongoNoteRepository.buildQuery,
      MongoNoteRepository.matchDoc, List.mem_filter,
      regexSearchCI_eq_substrCI pat.data h]

/-- C6 witness: applying the amended theorem at a concrete input — a
case-insensitive literal title search for `"AB"` finds the note titled
`"abc"`. -/
theorem search_literal_pattern_substring_witness :
    exRegexDoc ∈ MongoNoteRepository.search [exRegexDoc] { title := some "AB" } :=
  ((search_literal_pattern_substring [exRegexDoc] "AB" exRegexDoc (by decide)).1).mpr
    (by exact ⟨List.mem_singleton.mpr rfl, by decide⟩)

theorem dedupById_subset : ∀ (l : List NoteDoc),
    MongoNoteRepository.dedupById l ⊆ l
  | [] => by simp [MongoNoteRepository.dedupById]
  | d :: rest => by
    intro x hx
    simp only [MongoNoteRepository.dedupById, List.mem_cons] at hx
    rcases hx with hx | hx
    · exact hx ▸ List.mem_cons_self _ _
    · exact List.mem_cons_of_mem _
        (List.mem_of_mem_filter
          (dedupById_subset (rest.filter (fun e => e.id ≠ d.id)) hx))
termination_by l => l.length
decreasing_by
  simp only [List.length_cons]
  exact Nat.lt_succ_of_le (List.length_filter_le _ _)

theorem dedupById_ids_nodup : ∀ (l : List NoteDoc),
    ((MongoNoteRepository.dedupById l).map NoteDoc.id).Nodup
  | [] => by simp [MongoNoteRepository.dedupById]
  | d :: rest => by
    simp only [MongoNoteRepository.dedupById, List.map_cons, List.nodup_cons]
    refine ⟨?_, dedupById_ids_nodup (rest.filter (fun e => e.id ≠ d.id))⟩
    intro hmem
    obtain ⟨x, hx, hxid⟩ := List.mem_map.mp hmem
    have := List.of_mem_filter
      (dedupById_subset (rest.filter (fun e => e.id ≠ d.id)) hx)
    simp only [decide_eq_true_eq] at this
    exact this hxid
termination_by l => l.length
decreasing_by
  simp only [List.length_cons]
  exact Nat.lt_succ_of_le (List.length_filter_le _ _)

theorem mem_dedupById_iff : ∀ (l : List NoteDoc),
    (∀ a ∈ l, ∀ b ∈ l, a.id = b.id → a = b) →
    ∀ x, x ∈ MongoNoteRepository.dedupById l ↔ x ∈ l
  | [] => by intro _ x; simp [MongoNoteRepository.dedupById]
  | d :: rest => by
    intro huniq x
    constructor
    · exact fun hx => dedupById_subset _ hx
    · intro hx
      simp only [MongoNoteRepository.dedupById, List.mem_cons]
      rcases List.mem_cons.mp hx with hx | hx
      · exact Or.inl hx
      · by_cases hid : x.id = d.id
        · exact Or.inl (huniq x (List.mem_cons_of_mem _ hx) d
            (List.mem_cons_self _ _) hid)
        · refine Or.inr ?_
          have hx' : x ∈ rest.filter (fun e => e.id ≠ d.id) :=
            List.mem_filter.mpr ⟨hx, by simpa using hid⟩
          have huniq' : ∀ a ∈ rest.filter (fun e => e.id ≠ d.id),
              ∀ b ∈ rest.filter (fun e => e.id ≠ d.id), a.id = b.id → a = b := by
            intro a ha b hb
            exact huniq a (List.mem_cons_of_mem _ (List.mem_of_mem_filter ha))
              b (List.mem_cons_of_mem _ (List.mem_of_mem_filter hb))
          exact (mem_dedupById_iff (rest.filter (fun e => e.id ≠ d.id)) huniq' x).mpr hx'
termination_by l => l.length
decreasing_by
  simp only [List.length_cons]
  exact Nat.lt_succ_of_le (List.length_filter_le _ _)

theorem get_eq_some (s : RepoState) (i : String) (x : NoteDoc)
    (h : MongoNoteRepository.get s i = some x) : x ∈ s ∧ x.id = i :=
  ⟨List.mem_of_find?_eq_some h, by simpa using List.find?_some h⟩

theorem get_eq_some_of_mem (s : RepoState) (h : (s.map NoteDoc.id).Nodup)
    (x : NoteDoc) (hx : x ∈ s) : MongoNoteRepository.get s x.id = some x := by
  cases hg : MongoNoteRepository.get s x.id with
  | none =>
    have := List.find?_eq_none.mp hg x hx
    simp at this
  | some y =>
    obtain ⟨hy, hyid⟩ := get_eq_some s x.id y hg
    have := List.inj_on_of_nodup_map h hy hx hyid
    rw [this]

/-- C9: `find_linked_notes(id, "outgoing")` returns exactly the stored
notes whose id occurs as the `target_id` of some link of the note with
the given id (assuming the id-uniqueness the unique Mongo index on `id`
guarantees); a link whose target resolves to no stored note contributes
nothing and raises no error, and each returned note appears at most
once (the result's ids are duplicate-free). -/
theorem find_linked_notes_outgoing_spec (s : RepoState) (note_id : String)
    (h : (s.map NoteDoc.id).Nodup) :
    (∀ x, x ∈ MongoNoteRepository.find_linked_notes_outgoing s note_id ↔
      x ∈ s ∧ ∃ nd, MongoNoteRepository.get s note_id = some nd ∧
        ∃ l ∈ nd.links, l.target_id = x.id)
    ∧ ((MongoNoteRepository.find_linked_notes_outgoing s note_id).map
        NoteDoc.id).Nodup := by
  cases hg : MongoNoteRepository.get s note_id with
  | none =>
    constructor
    · intro x
      simp [MongoNoteRepository.find_linked_notes_outgoing, hg]
    · simp [MongoNoteRepository.find_linked_notes_outgoing, hg]
  | some nd =>
    have hres : MongoNoteRepository.find_linked_notes_outgoing s note_id
        = MongoNoteRepository.dedupById
            (nd.links.filterMap (fun l => MongoNoteRepository.get s l.target_id)) := by
      simp [MongoNoteRepository.find_linked_notes_outgoing, hg]
    have huniq : ∀ a ∈ nd.links.filterMap
          (fun l => MongoNoteRepository.get s l.target_id),
        ∀ b ∈ nd.links.filterMap
          (fun l => MongoNoteRepository.get s l.target_id),
        a.id = b.id → a = b := by
      intro a ha b hb hab
      obtain ⟨_, _, hga⟩ := List.mem_filterMap.mp ha
      obtain ⟨_, _, hgb⟩ := List.mem_filterMap.mp hb
      exact List.inj_on_of_nodup_map h (get_eq_some s _ a hga).1
        (get_eq_some s _ b hgb).1 hab
    constructor
    · intro x
      rw [hres, mem_dedupById_iff _ huniq, List.mem_filterMap]
      constructor
      · rintro ⟨l, hl, hget⟩
        obtain ⟨hxs, hxid⟩ := get_eq_some s l.target_id x hget
        exact ⟨hxs, nd, rfl, l, hl, hxid.symm⟩
      · rintro ⟨hxs, nd', hnd', l, hl, hlt⟩
        have hnd2 : nd = nd' := Option.some.inj hnd'
        subst hnd2
        refine ⟨l, hl, ?_⟩
        rw [hlt]
        exact get_eq_some_of_mem s h x hxs
    · rw [hres]
      exact dedupById_ids_nodup _

/-- C9 witness: applying the theorem at a concrete input — after
storing notes `A` (linking to `B`) and `B`, the note `B`'s document is
among the outgoing linked notes of `A`. -/
theorem find_linked_notes_outgoing_spec_witness :
    MongoNoteRepository.note_to_document exNoteB ∈
      MongoNoteRepository.find_linked_notes_outgoing
        [MongoNoteRepository.note_to_document
           { exNoteA with links := [exLinkAB] },
         MongoNoteRepository.note_to_document exNoteB] "A" :=
  ((find_linked_notes_outgoing_spec
      [MongoNoteRepository.note_to_document { exNoteA with links := [exLinkAB] },
       MongoNoteRepository.note_to_document exNoteB] "A" (by decide)).1
    (MongoNoteRepository.note_to_document exNoteB)).mpr
    (by
      refine ⟨by decide, MongoNoteRepository.note_to_document
        { exNoteA with links := [exLinkAB] }, by decide, ?_⟩
      exact ⟨{ source_id := "A", target_id := "B", link_type := "reference"
               description := none, created_at := 0 }, by decide, by decide⟩)

theorem linkType_value_roundtrip (lt : LinkType) :
    LinkType.ofValue lt.value = some lt := by
  cases lt <;> rfl

theorem noteType_value_roundtrip (nt : NoteType) :
    NoteType.ofValue nt.value = some nt := by
  cases nt <;> rfl

theorem decodeLinks_roundtrip (nid : String) :
    ∀ ls : List Link, (∀ l ∈ ls, l.source_id = nid) →
    MongoNoteRepository.decodeLinks nid (ls.map (fun l =>
      { source_id := l.source_id, target_id := l.target_id
        link_type := l.link_type.value, description := l.description
        created_at := l.created_at })) = some ls := by
  intro ls
  induction ls with
  | nil => intro _; rfl
  | cons l rest ih =>
    intro h
    have hl := h l (List.mem_cons_self _ _)
    have hrest := ih (fun x hx => h x (List.mem_cons_of_mem _ hx))
    simp only [List.map_cons, MongoNoteRepository.decodeLinks,
      linkType_value_roundtrip, hrest, Option.some.injEq]
    rw [← hl]

/-- C10: converting a note to its stored document and back is the
identity whenever every link of the note has `source_id` equal to the
note's own id (the decoder rewrites each link's `source_id` from the
document id): the decoded note equals the original on every field —
id, title, content, note_type, tags, links, created_at, updated_at and
metadata. -/
theorem note_document_roundtrip (n : Note)
    (h : ∀ l ∈ n.links, l.source_id = n.id) :
    MongoNoteRepository.document_to_note (MongoNoteRepository.note_to_document n)
      = some n := by
  have hlinks := decodeLinks_roundtrip n.id n.links h
  have htags :
      List.map ((fun s => ({ name := s } : Tag)) ∘ fun t : Tag => t.name) n.tags
        = n.tags :=
    List.map_id n.tags
  simp [MongoNoteRepository.document_to_note, MongoNoteRepository.note_to_document,
    hlinks, noteType_value_roundtrip]
  rw [htags]

/-- C10 witness: applying the theorem at a concrete input. -/
theorem note_document_roundtrip_witness :
    MongoNoteRepository.document_to_note
        (MongoNoteRepository.note_to_document exNoteADupLinks)
      = some exNoteADupLinks :=
  note_document_roundtrip exNoteADupLinks (by decide)

end Zettel
